import Mathlib

/-!
Shallow embedding of the AFG2125 function-generator driver (gwinstek.py).

Commands written to the transport are modelled as a `List String`, in write
order.  Methods that can fail locally before writing return
`Except DriverError (List String)`.  Python floats are idealised as exact
rationals (`ℚ`); Python's built-in `round` (banker's rounding, half to even)
is embedded as `pythonRound`.  SCPI parameter values that the Python code
interpolates into f-strings (floats, or sentinel tokens such as "MIN") are
modelled as the `String` produced by that interpolation.
-/

namespace Gwinstek

/-- Error kinds of the driver's local validation, per the design-level error
taxonomy.  `invalidWaveform` models the `AssertionError` raised by the two
`assert` statements of `set_arb_data`; `invalidIntent` is the error kind for
a malformed `apply` parameter prefix (no code path of the source raises it,
which some theorems below make precise). -/
inductive DriverError where
  | invalidWaveform
  | invalidIntent
  deriving DecidableEq, Repr

/-- The output-function literals accepted by `apply` and `set_function`:
`Literal["SIN", "SQU", "RAMP", "NOIS", "USER"]`. -/
inductive Func where
  | SIN | SQU | RAMP | NOIS | USER
  deriving DecidableEq, Repr

/-- The string interpolated for a `Func` literal. -/
def Func.str : Func → String
  | .SIN => "SIN"
  | .SQU => "SQU"
  | .RAMP => "RAMP"
  | .NOIS => "NOIS"
  | .USER => "USER"

/-- `Literal["ON", "OFF"]`. -/
inductive OnOff where
  | ON | OFF
  deriving DecidableEq, Repr

/-- The string interpolated for an `OnOff` literal. -/
def OnOff.str : OnOff → String
  | .ON => "ON"
  | .OFF => "OFF"

/-- `Literal["INT", "EXT"]`. -/
inductive IntExt where
  | INT | EXT
  deriving DecidableEq, Repr

/-- The string interpolated for an `IntExt` literal. -/
def IntExt.str : IntExt → String
  | .INT => "INT"
  | .EXT => "EXT"

/-- The modulation-function literals `Literal["SIN", "SQU", "RAMP"]`. -/
inductive AMFunc where
  | SIN | SQU | RAMP
  deriving DecidableEq, Repr

/-- The string interpolated for an `AMFunc` literal. -/
def AMFunc.str : AMFunc → String
  | .SIN => "SIN"
  | .SQU => "SQU"
  | .RAMP => "RAMP"

/-- Python's `",".join(xs)`. -/
def commaJoin : List String → String
  | [] => ""
  | [x] => x
  | x :: y :: xs => x ++ "," ++ commaJoin (y :: xs)

/-- `AFG2125.apply`, the command-string construction only: starts from
`SOUR:APPL:{function}` and appends ` {frequency}`, then `,{amplitude}` when
frequency and amplitude are both supplied, then `,{offset}` when all three
are supplied, exactly as the source's three `if` statements do.  Optional
parameters are `Option String`, the string being the f-string rendering of
the Python argument. -/
def applyCmd (fn : Func) (frequency amplitude offset : Option String) : String :=
  let command := "SOUR:APPL:" ++ fn.str
  let command := match frequency with
    | some v => command ++ " " ++ v
    | none => command
  let command := match frequency, amplitude with
    | some _, some v => command ++ "," ++ v
    | _, _ => command
  let command := match frequency, amplitude, offset with
    | some _, some _, some v => command ++ "," ++ v
    | _, _, _ => command
  command

/-- `AFG2125.apply` as a whole: builds the command and writes it.  The source
method contains no raise and no validation, so the result is always `ok` with
the single written command; the `Except` type records that the method is a
place where the design's `InvalidIntent` error could live. -/
def apply (fn : Func) (frequency amplitude offset : Option String) :
    Except DriverError (List String) :=
  .ok [applyCmd fn frequency amplitude offset]

/-- `AFG2125.set_amplitude_modulation`: writes the state command, returns at
once when state is OFF, otherwise writes the source command, the two
internal-modulation commands when source is INT, and the depth command. -/
def set_amplitude_modulation (state : OnOff) (source : IntExt) (fn : AMFunc)
    (frequency depth : String) : List String :=
  ["SOUR:AM:STAT " ++ state.str] ++
    if state = .OFF then []
    else
      ["SOUR:AM:SOUR " ++ source.str] ++
        (if source = .INT then
          ["SOUR:AM:INT:FUNC " ++ fn.str, "SOUR:AM:INT:FREQ " ++ frequency]
        else []) ++
        ["SOUR:AM:DEPT " ++ depth]

/-- `max(abs(x) for x in data)` of `set_arb_data`, as a left fold.  For the
nonempty lists the method admits this equals Python's `max`, since every
`abs x` is nonnegative. -/
def max_val (data : List ℚ) : ℚ :=
  data.foldl (fun acc x => max acc |x|) 0

/-- `scale = 511.0 / max_val` of `set_arb_data`. -/
def scale (data : List ℚ) : ℚ := 511 / max_val data

/-- Python's built-in `round` on an exact rational: round half to even. -/
def pythonRound (x : ℚ) : ℤ :=
  if x - ⌊x⌋ < 1 / 2 then ⌊x⌋
  else if 1 / 2 < x - ⌊x⌋ then ⌊x⌋ + 1
  else if ⌊x⌋ % 2 = 0 then ⌊x⌋ else ⌊x⌋ + 1

/-- The integer DAC codes `[round(x * scale) for x in data]` of
`set_arb_data`. -/
def codes (data : List ℚ) : List ℤ :=
  data.map (fun x => pythonRound (x * scale data))

/-- `AFG2125.set_arb_data`: asserts the length and slot ranges, returns early
(writing nothing) when `max_val == 0` — the Python body there returns
`[0.0] * len(data)` from a `-> None` method instead of uploading — and
otherwise writes the `DATA:DAC` upload followed by `self.save(slot)`, which
writes `*SAV {slot}`. -/
def set_arb_data (data : List ℚ) (slot : ℤ) : Except DriverError (List String) :=
  if ¬ (1 ≤ data.length ∧ data.length ≤ 4096) then .error .invalidWaveform
  else if ¬ (10 ≤ slot ∧ slot ≤ 19) then .error .invalidWaveform
  else if max_val data = 0 then .ok []
  else
    .ok ["DATA:DAC VOLATILE,0," ++ commaJoin ((codes data).map toString),
         "*SAV " ++ toString slot]

/-- The left-to-right longest supplied prefix of
(frequency, amplitude, offset): the list of parameter values `apply`
actually renders. -/
def longestGiven : Option String → Option String → Option String → List String
  | none, _, _ => []
  | some f, none, _ => [f]
  | some f, some a, none => [f, a]
  | some f, some a, some o => [f, a, o]

/-- The trailing-values suffix of an `apply` command: empty for no values,
otherwise a space followed by the comma-joined values. -/
def suffixJoin : List String → String
  | [] => ""
  | v :: vs => " " ++ commaJoin (v :: vs)

/-- The supplied parameters of an `apply` call, in declared order. -/
def suppliedList (frequency amplitude offset : Option String) : List String :=
  frequency.toList ++ amplitude.toList ++ offset.toList

/-- The number of parameters supplied to an `apply` call. -/
def paramCount (frequency amplitude offset : Option String) : ℕ :=
  (if frequency.isSome then 1 else 0) + (if amplitude.isSome then 1 else 0) +
    (if offset.isSome then 1 else 0)

/-- A legal left-to-right parameter prefix: amplitude only with frequency,
offset only with amplitude (hence with frequency). -/
def legalParams (frequency amplitude offset : Option String) : Prop :=
  (amplitude ≠ none → frequency ≠ none) ∧ (offset ≠ none → amplitude ≠ none)

instance (fr am off : Option String) : Decidable (legalParams fr am off) := by
  unfold legalParams
  infer_instance

/-! ### Helper lemmas about `pythonRound` -/

theorem pythonRound_of_lt (x : ℚ) (f : ℤ) (h1 : ⌊x⌋ = f) (h2 : x - f < 1 / 2) :
    pythonRound x = f := by
  unfold pythonRound
  rw [h1, if_pos h2]

theorem pythonRound_of_gt (x : ℚ) (f : ℤ) (h1 : ⌊x⌋ = f) (h2 : 1 / 2 < x - f) :
    pythonRound x = f + 1 := by
  unfold pythonRound
  rw [h1, if_neg (by linarith), if_pos h2]

theorem pythonRound_of_half_even (x : ℚ) (f : ℤ) (h1 : ⌊x⌋ = f)
    (h2 : x - f = 1 / 2) (h3 : f % 2 = 0) : pythonRound x = f := by
  unfold pythonRound
  rw [h1, if_neg (by linarith), if_neg (by linarith), if_pos h3]

theorem pythonRound_of_half_odd (x : ℚ) (f : ℤ) (h1 : ⌊x⌋ = f)
    (h2 : x - f = 1 / 2) (h3 : ¬ f % 2 = 0) : pythonRound x = f + 1 := by
  unfold pythonRound
  rw [h1, if_neg (by linarith), if_neg (by linarith), if_neg h3]

theorem pythonRound_intCast (n : ℤ) : pythonRound (n : ℚ) = n := by
  apply pythonRound_of_lt
  · exact Int.floor_intCast n
  · norm_num

theorem pythonRound_le (x : ℚ) (n : ℤ) (h : x ≤ (n : ℚ)) : pythonRound x ≤ n := by
  have hf : ⌊x⌋ ≤ n := by
    have := Int.floor_le_floor h
    rwa [Int.floor_intCast] at this
  unfold pythonRound
  split_ifs with h1 h2 h3
  · exact hf
  · rcases lt_or_eq_of_le hf with h' | h'
    · omega
    · exfalso
      have hx : (⌊x⌋ : ℚ) ≤ x - 1 / 2 := by linarith
      rw [h'] at hx
      linarith
  · exact hf
  · rcases lt_or_eq_of_le hf with h' | h'
    · omega
    · exfalso
      have hx : (⌊x⌋ : ℚ) ≤ x - 1 / 2 := by linarith
      rw [h'] at hx
      linarith

theorem le_pythonRound (x : ℚ) (n : ℤ) (h : (n : ℚ) ≤ x) : n ≤ pythonRound x := by
  have hf : n ≤ ⌊x⌋ := Int.le_floor.mpr h
  unfold pythonRound
  split_ifs <;> omega

theorem abs_pythonRound_le (x : ℚ) (n : ℤ) (h : |x| ≤ (n : ℚ)) :
    |pythonRound x| ≤ n := by
  rw [abs_le] at h ⊢
  refine ⟨le_pythonRound x (-n) (by push_cast; linarith [h.1]), pythonRound_le x n h.2⟩

/-! ### Helper lemmas about `max_val` -/

theorem foldl_max_le_init (l : List ℚ) :
    ∀ a : ℚ, a ≤ l.foldl (fun acc x => max acc |x|) a := by
  induction l with
  | nil => intro a; exact le_refl a
  | cons x xs ih =>
    intro a
    rw [List.foldl_cons]
    exact le_trans (le_max_left a |x|) (ih (max a |x|))

theorem le_foldl_max {l : List ℚ} {x : ℚ} (hx : x ∈ l) :
    ∀ a : ℚ, |x| ≤ l.foldl (fun acc y => max acc |y|) a := by
  induction l with
  | nil => cases hx
  | cons y ys ih =>
    intro a
    rw [List.foldl_cons]
    rcases List.mem_cons.mp hx with h | h
    · subst h
      exact le_trans (le_max_right a |x|) (foldl_max_le_init ys (max a |x|))
    · exact ih h (max a |y|)

theorem max_val_nonneg (l : List ℚ) : 0 ≤ max_val l :=
  foldl_max_le_init l 0

theorem le_max_val {l : List ℚ} {x : ℚ} (hx : x ∈ l) : |x| ≤ max_val l :=
  le_foldl_max hx 0

theorem foldl_max_attained (l : List ℚ) :
    ∀ a : ℚ, l.foldl (fun acc x => max acc |x|) a = a ∨
      ∃ x ∈ l, |x| = l.foldl (fun acc x => max acc |x|) a := by
  induction l with
  | nil => intro a; left; rfl
  | cons y ys ih =>
    intro a
    rw [List.foldl_cons]
    rcases ih (max a |y|) with h | ⟨x, hx, heq⟩
    · rcases max_choice a |y| with h1 | h1
      · left; rw [h, h1]
      · right; exact ⟨y, List.mem_cons_self y ys, by rw [h, h1]⟩
    · right; exact ⟨x, List.mem_cons_of_mem y hx, heq⟩

theorem max_val_attained (l : List ℚ) :
    max_val l = 0 ∨ ∃ x ∈ l, |x| = max_val l :=
  foldl_max_attained l 0

theorem max_val_of_all_zero {l : List ℚ} (h : ∀ x ∈ l, x = 0) : max_val l = 0 := by
  induction l with
  | nil => rfl
  | cons y ys ih =>
    have hy : y = 0 := h y (List.mem_cons_self y ys)
    have : max_val (y :: ys) = max_val ys := by
      unfold max_val
      rw [List.foldl_cons, hy, abs_zero, max_self]
    rw [this]
    exact ih fun x hx => h x (List.mem_cons_of_mem y hx)

theorem max_val_map_mul (l : List ℚ) (k : ℚ) (hk : 0 < k) :
    max_val (l.map (fun x => k * x)) = k * max_val l := by
  unfold max_val
  rw [List.foldl_map]
  have key : ∀ a : ℚ, l.foldl (fun acc x => max acc |k * x|) (k * a) =
      k * l.foldl (fun acc x => max acc |x|) a := by
    induction l with
    | nil => intro a; rfl
    | cons y ys ih =>
      intro a
      rw [List.foldl_cons, List.foldl_cons, abs_mul, abs_of_pos hk,
        ← mul_max_of_nonneg a |y| hk.le]
      exact ih (max a |y|)
  have := key 0
  rwa [mul_zero] at this

/-! ### Helper lemmas about `codes` and `applyCmd` -/

theorem max_val_pos {l : List ℚ} (hp : max_val l ≠ 0) : 0 < max_val l :=
  lt_of_le_of_ne (max_val_nonneg l) (Ne.symm hp)

theorem abs_code_le (data : List ℚ) (hp : max_val data ≠ 0) :
    ∀ c ∈ codes data, |c| ≤ 511 := by
  intro c hc
  obtain ⟨x, hx, rfl⟩ := List.mem_map.mp hc
  have hM : 0 < max_val data := max_val_pos hp
  have hxM : |x| ≤ max_val data := le_max_val hx
  have hspos : 0 < 511 / max_val data := div_pos (by norm_num) hM
  have hbound : |x * scale data| ≤ 511 := by
    rw [abs_mul, scale, abs_of_pos hspos]
    calc |x| * (511 / max_val data) ≤ max_val data * (511 / max_val data) :=
          mul_le_mul_of_nonneg_right hxM hspos.le
      _ = 511 := by field_simp
  exact abs_pythonRound_le _ 511 (by exact_mod_cast hbound)

theorem code_at_peak (data : List ℚ) (hp : max_val data ≠ 0) (x : ℚ)
    (hx : |x| = max_val data) :
    pythonRound (x * scale data) = 511 ∨ pythonRound (x * scale data) = -511 := by
  rcases (abs_eq (max_val_nonneg data)).mp hx with h | h
  · left
    have he : x * scale data = ((511 : ℤ) : ℚ) := by
      rw [h, scale]
      field_simp
    rw [he, pythonRound_intCast]
  · right
    have he : x * scale data = ((-511 : ℤ) : ℚ) := by
      rw [h, scale]
      field_simp
      ring
    rw [he, pythonRound_intCast]

theorem exists_code_peak (data : List ℚ) (hp : max_val data ≠ 0) :
    ∃ c ∈ codes data, c = 511 ∨ c = -511 := by
  rcases max_val_attained data with h | ⟨x, hx, hxe⟩
  · exact absurd h hp
  · exact ⟨pythonRound (x * scale data), List.mem_map_of_mem _ hx,
      code_at_peak data hp x hxe⟩

theorem codes_map_mul (data : List ℚ) (k : ℚ) (hk : 0 < k)
    (hp : max_val data ≠ 0) :
    codes (data.map (fun x => k * x)) = codes data := by
  unfold codes scale
  rw [max_val_map_mul data k hk, List.map_map]
  refine List.map_congr_left fun x hx => ?_
  simp only [Function.comp_apply]
  congr 1
  field_simp
  ring

theorem applyCmd_eq (fn : Func) (fr am off : Option String) :
    applyCmd fn fr am off =
      "SOUR:APPL:" ++ fn.str ++ suffixJoin (longestGiven fr am off) := by
  rcases fr with _ | f <;> rcases am with _ | a <;> rcases off with _ | o <;>
    simp [applyCmd, longestGiven, suffixJoin, commaJoin, String.append_assoc]

/-! ### Claim theorems -/

/-- Claim C2: for every `apply` intent whose supplied parameters form a legal
left-to-right prefix of (frequency, amplitude, offset), the rendered command
is written as a single command that starts with `SOUR:APPL:<FUNC>` and carries
exactly the supplied values, comma separated, in declared order. -/
theorem apply_legal_params (fn : Func) (fr am off : Option String)
    (h : legalParams fr am off) :
    apply fn fr am off =
      .ok ["SOUR:APPL:" ++ fn.str ++ suffixJoin (suppliedList fr am off)]
    ∧ (∃ t, applyCmd fn fr am off = ("SOUR:APPL:" ++ fn.str) ++ t)
    ∧ (suppliedList fr am off).length = paramCount fr am off := by
  refine ⟨?_, ⟨suffixJoin (longestGiven fr am off), applyCmd_eq fn fr am off⟩, ?_⟩
  · have hsup : suppliedList fr am off = longestGiven fr am off := by
      rcases fr with _ | f <;> rcases am with _ | a <;> rcases off with _ | o <;>
        simp_all [legalParams, suppliedList, longestGiven]
    unfold apply
    rw [applyCmd_eq, hsup]
  · rcases fr with _ | f <;> rcases am with _ | a <;> rcases off with _ | o <;>
      simp_all [legalParams, suppliedList, paramCount]

/-- Witness for the C2 theorem at the legal intent (SIN, 1000, 1.0, omitted). -/
theorem apply_legal_params_witness :
    apply .SIN (some "1000") (some "1.0") none =
      .ok ["SOUR:APPL:" ++ Func.SIN.str ++
        suffixJoin (suppliedList (some "1000") (some "1.0") none)]
    ∧ (∃ t, applyCmd .SIN (some "1000") (some "1.0") none =
        ("SOUR:APPL:" ++ Func.SIN.str) ++ t)
    ∧ (suppliedList (some "1000") (some "1.0") none).length =
        paramCount (some "1000") (some "1.0") none :=
  apply_legal_params .SIN (some "1000") (some "1.0") none (by decide)

/-- Claim C3 counterexample: calling `apply` with amplitude supplied but
frequency omitted does not fail with any error; it writes the bare command. -/
theorem apply_gap_counterexample :
    apply .SIN none (some "1.0") none = .ok ["SOUR:APPL:SIN"]
    ∧ ∀ e : DriverError, apply .SIN none (some "1.0") none ≠ .error e := by
  refine ⟨rfl, fun e he => Except.noConfusion he⟩

/-- Claim C3 (amended): calling `apply` with any gapped, non-prefix
combination of (frequency, amplitude, offset) does not raise any error; the
parameters following the gap are silently dropped and the single command for
the longest supplied prefix is written. -/
theorem apply_gapped_writes (fn : Func) (fr am off : Option String)
    (h : ¬ legalParams fr am off) :
    (∀ e : DriverError, apply fn fr am off ≠ .error e)
    ∧ apply fn fr am off =
        .ok ["SOUR:APPL:" ++ fn.str ++ suffixJoin (longestGiven fr am off)] := by
  refine ⟨fun e he => Except.noConfusion he, ?_⟩
  unfold apply
  rw [applyCmd_eq]

/-- Witness for the amended C3 theorem at the gapped intent
(SIN, omitted, 1.0, omitted). -/
theorem apply_gapped_writes_witness :
    (∀ e : DriverError, apply .SIN none (some "1.0") none ≠ .error e)
    ∧ apply .SIN none (some "1.0") none =
        .ok ["SOUR:APPL:" ++ Func.SIN.str ++
          suffixJoin (longestGiven none (some "1.0") none)] :=
  apply_gapped_writes .SIN none (some "1.0") none (by decide)

/-- Claim C9: `apply` always writes exactly the longest supplied prefix of
(frequency, amplitude, offset) with no error raised: amplitude without
frequency yields the bare `SOUR:APPL:<FUNC>`, and offset with frequency but
without amplitude yields only the frequency value. -/
theorem apply_renders_longest_supplied (fn : Func) (fr am off : Option String)
    (f o : String) :
    apply fn fr am off =
      .ok ["SOUR:APPL:" ++ fn.str ++ suffixJoin (longestGiven fr am off)]
    ∧ apply fn none (some f) none = .ok ["SOUR:APPL:" ++ fn.str]
    ∧ apply fn (some f) none (some o) =
        .ok ["SOUR:APPL:" ++ fn.str ++ " " ++ f] := by
  refine ⟨?_, ?_, ?_⟩
  · unfold apply
    rw [applyCmd_eq]
  · unfold apply
    rw [applyCmd_eq]
    simp [longestGiven, suffixJoin]
  · unfold apply
    rw [applyCmd_eq]
    simp [longestGiven, suffixJoin, commaJoin, String.append_assoc]

/-- Claim C7: turning amplitude modulation off writes exactly the single
command `SOUR:AM:STAT OFF`, whatever the other arguments are. -/
theorem set_am_off_single (source : IntExt) (fn : AMFunc) (freq depth : String) :
    set_amplitude_modulation .OFF source fn freq depth = ["SOUR:AM:STAT OFF"] :=
  rfl

/-- Claim C6 counterexample: with state ON and source EXT the method writes
three commands (state, source, depth), not two. -/
theorem set_am_on_ext_counterexample :
    set_amplitude_modulation .ON .EXT .SIN "100.0" "50.0" =
      ["SOUR:AM:STAT ON", "SOUR:AM:SOUR EXT", "SOUR:AM:DEPT 50.0"]
    ∧ (set_amplitude_modulation .ON .EXT .SIN "100.0" "50.0").length ≠ 2 :=
  ⟨rfl, by decide⟩

/-- Claim C6 (amended): with state ON and source EXT, exactly three commands
are written — state-on, source, and depth — with the internal-function and
internal-frequency commands omitted. -/
theorem set_am_on_ext_three (fn : AMFunc) (freq depth : String) :
    set_amplitude_modulation .ON .EXT fn freq depth =
      ["SOUR:AM:STAT ON", "SOUR:AM:SOUR EXT", "SOUR:AM:DEPT " ++ depth] :=
  rfl

/-- Claim C8: a sample-sequence length outside [1, 4096] or a slot outside
[10, 19] makes `set_arb_data` fail with the InvalidWaveform error, with no
command written (the error result carries no writes). -/
theorem set_arb_data_invalid (data : List ℚ) (slot : ℤ)
    (h : ¬ (1 ≤ data.length ∧ data.length ≤ 4096) ∨ ¬ (10 ≤ slot ∧ slot ≤ 19)) :
    set_arb_data data slot = .error .invalidWaveform := by
  unfold set_arb_data
  rcases h with h | h
  · rw [if_pos h]
  · by_cases h1 : 1 ≤ data.length ∧ data.length ≤ 4096
    · rw [if_neg (not_not_intro h1), if_pos h]
    · rw [if_pos h1]

/-- Witness for the C8 theorem at the empty sample sequence. -/
theorem set_arb_data_invalid_witness :
    set_arb_data [] 10 = .error .invalidWaveform :=
  set_arb_data_invalid [] 10 (Or.inl (by decide))

/-- Claim C10: on an all-zero sample sequence of valid length and valid slot,
`set_arb_data` returns without writing any command: neither the DATA:DAC
upload nor the *SAV save is issued. -/
theorem set_arb_data_all_zero_no_writes (data : List ℚ) (slot : ℤ)
    (h1 : 1 ≤ data.length) (h2 : data.length ≤ 4096)
    (h3 : 10 ≤ slot) (h4 : slot ≤ 19) (hz : ∀ x ∈ data, x = 0) :
    set_arb_data data slot = .ok [] := by
  unfold set_arb_data
  rw [if_neg (not_not_intro ⟨h1, h2⟩), if_neg (not_not_intro ⟨h3, h4⟩),
    if_pos (max_val_of_all_zero hz)]

/-- Witness for the C10 theorem at the singleton zero waveform. -/
theorem set_arb_data_all_zero_no_writes_witness :
    set_arb_data [0] 10 = .ok [] :=
  set_arb_data_all_zero_no_writes [0] 10 (by decide) (by decide) (by decide)
    (by decide) (by simp)

/-- Claim C4: the code's actual behaviour at an all-zero waveform of valid
length and slot — it returns early with no writes at all, so the zero payload
is never uploaded and the slot is never saved, contrary to the documented
intent that the all-zero case uploads like any other valid waveform. -/
theorem set_arb_data_zero_waveform_behavior :
    set_arb_data [0, 0] 12 = .ok [] := by
  unfold set_arb_data
  rw [if_neg (not_not_intro ⟨by decide, by decide⟩),
    if_neg (not_not_intro ⟨by decide, by decide⟩),
    if_pos (max_val_of_all_zero (by simp))]

/-- Claim C5: encoding the 4-sample sequence [1.0, -0.5, 0.0, 0.5] yields
peak 1, scale 511, codes [511, -256, 0, 256], and the written commands are
the upload `DATA:DAC VOLATILE,0,511,-256,0,256` followed by the save. -/
theorem set_arb_data_example :
    max_val [1, -1/2, 0, 1/2] = 1
    ∧ scale [1, -1/2, 0, 1/2] = 511
    ∧ codes [1, -1/2, 0, 1/2] = [511, -256, 0, 256]
    ∧ set_arb_data [1, -1/2, 0, 1/2] 10 =
        .ok ["DATA:DAC VOLATILE,0,511,-256,0,256", "*SAV 10"] := by
  have hm : max_val [1, -1/2, 0, 1/2] = 1 := by norm_num [max_val, abs]
  have hs : scale [1, -1/2, 0, 1/2] = 511 := by rw [scale, hm]; norm_num
  have hc : codes [1, -1/2, 0, 1/2] = [511, -256, 0, 256] := by
    unfold codes
    rw [hs]
    simp only [List.map_cons, List.map_nil]
    rw [show pythonRound ((1 : ℚ) * 511) = 511 from
        pythonRound_of_lt _ _ (by norm_num) (by norm_num),
      show pythonRound ((-1/2 : ℚ) * 511) = -256 from
        pythonRound_of_half_even _ _ (by norm_num) (by norm_num) (by decide),
      show pythonRound ((0 : ℚ) * 511) = 0 from
        pythonRound_of_lt _ _ (by norm_num) (by norm_num),
      show pythonRound ((1/2 : ℚ) * 511) = 256 from by
        rw [pythonRound_of_half_odd _ 255 (by norm_num) (by norm_num) (by decide)]
        decide]
  refine ⟨hm, hs, hc, ?_⟩
  unfold set_arb_data
  rw [if_neg (not_not_intro ⟨by decide, by decide⟩),
    if_neg (not_not_intro ⟨by decide, by decide⟩),
    if_neg (show ¬ max_val [1, -1/2, 0, 1/2] = 0 by rw [hm]; norm_num), hc]
  rfl

/-- Claim C1 counterexample: for the 2-sample sequence [1022, 1021.8] the
scale is 1/2 and both samples encode to code 511, yet the second sample is
not a global peak sample, so the maximum absolute code is not achieved
exclusively at the peak sample(s). -/
theorem encoding_peak_counterexample :
    max_val [1022, 5109/5] = 1022
    ∧ codes [1022, 5109/5] = [511, 511]
    ∧ |(5109/5 : ℚ)| ≠ max_val [1022, 5109/5] := by
  have hm : max_val [1022, 5109/5] = 1022 := by norm_num [max_val, abs]
  have hs : scale [1022, 5109/5] = 511/1022 := by rw [scale, hm]
  refine ⟨hm, ?_, by
    rw [hm, abs_of_nonneg (by norm_num : (0 : ℚ) ≤ 5109/5)]
    norm_num⟩
  unfold codes
  rw [hs]
  simp only [List.map_cons, List.map_nil]
  rw [show pythonRound ((1022 : ℚ) * (511/1022)) = 511 from
      pythonRound_of_lt _ _ (by norm_num) (by norm_num),
    show pythonRound ((5109/5 : ℚ) * (511/1022)) = 511 from by
      rw [pythonRound_of_gt _ 510 (by norm_num) (by norm_num)]
      decide]

/-- Claim C1 (amended): with a nonzero peak, each sample x encodes to
round(x * 511 / peak); every code has absolute value at most 511; every
global peak sample encodes to code 511 or -511 (so the maximum absolute code
equals 511 and is achieved at the peak sample(s), though a sample within
rounding distance of the peak may reach 511 as well); and pre-scaling every
sample by a positive constant k yields identical codes. -/
theorem encoding_scale_amended (data : List ℚ) (k : ℚ)
    (h1 : 1 ≤ data.length) (h2 : data.length ≤ 4096)
    (hp : max_val data ≠ 0) (hk : 0 < k) :
    codes data = data.map (fun x => pythonRound (x * (511 / max_val data)))
    ∧ (∀ c ∈ codes data, |c| ≤ 511)
    ∧ (∀ x ∈ data, |x| = max_val data →
        pythonRound (x * scale data) = 511 ∨ pythonRound (x * scale data) = -511)
    ∧ (∃ c ∈ codes data, c = 511 ∨ c = -511)
    ∧ codes (data.map (fun x => k * x)) = codes data :=
  ⟨rfl, abs_code_le data hp, fun x _ hx => code_at_peak data hp x hx,
    exists_code_peak data hp, codes_map_mul data k hk hp⟩

/-- Witness for the amended C1 theorem at the sequence [2, -1] with k = 3. -/
theorem encoding_scale_amended_witness :
    codes [2, -1] = [2, -1].map (fun x => pythonRound (x * (511 / max_val [2, -1])))
    ∧ (∀ c ∈ codes [2, -1], |c| ≤ 511)
    ∧ (∀ x ∈ [(2 : ℚ), -1], |x| = max_val [2, -1] →
        pythonRound (x * scale [2, -1]) = 511 ∨ pythonRound (x * scale [2, -1]) = -511)
    ∧ (∃ c ∈ codes [2, -1], c = 511 ∨ c = -511)
    ∧ codes ([2, -1].map (fun x => 3 * x)) = codes [2, -1] :=
  encoding_scale_amended [2, -1] 3 (by decide) (by decide)
    (by norm_num [max_val, abs]) (by norm_num)

end Gwinstek
